import Mathlib

/-!
# Verification of the `echoing` request-echo handler

A shallow embedding of `src/main.py`: a FastAPI application exposing one
route that echoes every observable detail of an HTTP request back as a
structured JSON response.  The handler logic (`echo`, `_headers_to_list`,
`_normalize_scope`) is translated definition-by-definition from the source;
runtime primitives the source calls (`bytes.decode`, `base64.b64encode`,
`json.loads`, `urllib.parse.parse_qsl`, the Starlette request accessors)
are modelled from their documented behaviour, each with a doc comment
saying so.
-/

namespace Echoing

/-- A raw byte, as carried by Python `bytes`. -/
abbrev Byte := Fin 256

/-- Python runtime values as they occur in an ASGI scope dictionary:
primitive scalars, byte strings, sequences, dictionaries, and a catch-all
constructor `pobj` for non-serialisable objects (the ASGI app, router,
endpoint, callables, ...), tagged by an opaque description.  Floats are
carried by their textual representation; the handler never computes with
them, only tests their type. -/
inductive PyVal : Type where
  | pstr (s : String)
  | pint (n : Int)
  | pfloat (repr : String)
  | pbool (b : Bool)
  | pnone
  | pbytes (bs : List Byte)
  | plist (items : List PyVal)
  | ptuple (items : List PyVal)
  | pdict (entries : List (String × PyVal))
  | pobj (tag : String)

/-- JSON values as produced by the runtime JSON parser.  A number is kept
as `mantissa * 10 ^ exp` so that integer and decimal literals stay
distinguishable, mirroring the `int` / `float` split of Python. -/
inductive Json : Type where
  | jnull
  | jbool (b : Bool)
  | jnum (mantissa : Int) (exp : Int)
  | jstr (s : String)
  | jarr (items : List Json)
  | jobj (entries : List (String × Json))

/-! ## Text codecs

The source calls `raw_body.decode(name, errors="replace")` inside a
`try/except LookupError`, plus latin-1 decodes for headers.  We model the
two runtime pieces involved: the codec registry lookup and the decoders
themselves. -/

/-- Latin-1 ("ISO-8859-1") decoding: every byte maps to the code point of
the same value, so `errors="replace"` can never fire.  Modelled from the
CPython `latin-1` codec. -/
def latin1Decode (bs : List Byte) : String :=
  String.mk (bs.map fun b => Char.ofNat b.val)

/-- The Unicode replacement character U+FFFD used by `errors="replace"`. -/
def replacementChar : Char := Char.ofNat 0xFFFD

/-- Is `c` a UTF-8 continuation byte whose value lies in `[lo, hi]`? -/
def contIn (lo hi : Nat) (c : Byte) : Bool :=
  decide (lo ≤ c.val) && decide (c.val ≤ hi)

/-- One step of the incremental UTF-8 decoder: examine the head of the
byte list and return the decoded scalar value (`none` for an ill-formed
sequence) together with the number of bytes consumed (the maximal valid
subpart, at least 1).  Modelled from the CPython UTF-8 codec, which
follows the Unicode "maximal subpart" practice for error reporting. -/
def utf8Step : List Byte → Option Char × Nat
  | [] => (none, 1)
  | b :: rest =>
    if b.val < 0x80 then (some (Char.ofNat b.val), 1)
    else if 0xC2 ≤ b.val ∧ b.val ≤ 0xDF then
      match rest with
      | c1 :: _ =>
        if contIn 0x80 0xBF c1 then
          (some (Char.ofNat ((b.val - 0xC0) * 64 + (c1.val - 0x80))), 2)
        else (none, 1)
      | [] => (none, 1)
    else if 0xE0 ≤ b.val ∧ b.val ≤ 0xEF then
      let lo1 := if b.val = 0xE0 then 0xA0 else 0x80
      let hi1 := if b.val = 0xED then 0x9F else 0xBF
      match rest with
      | c1 :: rest1 =>
        if contIn lo1 hi1 c1 then
          match rest1 with
          | c2 :: _ =>
            if contIn 0x80 0xBF c2 then
              (some (Char.ofNat ((b.val - 0xE0) * 4096 +
                (c1.val - 0x80) * 64 + (c2.val - 0x80))), 3)
            else (none, 2)
          | [] => (none, 2)
        else (none, 1)
      | [] => (none, 1)
    else if 0xF0 ≤ b.val ∧ b.val ≤ 0xF4 then
      let lo1 := if b.val = 0xF0 then 0x90 else 0x80
      let hi1 := if b.val = 0xF4 then 0x8F else 0xBF
      match rest with
      | c1 :: rest1 =>
        if contIn lo1 hi1 c1 then
          match rest1 with
          | c2 :: rest2 =>
            if contIn 0x80 0xBF c2 then
              match rest2 with
              | c3 :: _ =>
                if contIn 0x80 0xBF c3 then
                  (some (Char.ofNat ((b.val - 0xF0) * 262144 +
                    (c1.val - 0x80) * 4096 + (c2.val - 0x80) * 64 +
                    (c3.val - 0x80))), 4)
                else (none, 3)
              | [] => (none, 3)
            else (none, 2)
          | [] => (none, 2)
        else (none, 1)
      | [] => (none, 1)
    else (none, 1)

/-- Fuelled UTF-8 decoding loop with `errors="replace"`: ill-formed
sequences become U+FFFD.  Each step consumes at least one byte, so fuel
equal to the list length suffices. -/
def utf8ReplaceAux : Nat → List Byte → List Char
  | 0, _ => []
  | _, [] => []
  | fuel + 1, l =>
    let (c, n) := utf8Step l
    (match c with | some ch => ch | none => replacementChar) ::
      utf8ReplaceAux fuel (l.drop (max n 1))

/-- Model of `bytes.decode("utf-8", errors="replace")`. -/
def utf8Replace (bs : List Byte) : String :=
  String.mk (utf8ReplaceAux bs.length bs)

/-- Fuelled strict UTF-8 decoding loop: `none` on any ill-formed
sequence. -/
def utf8StrictAux : Nat → List Byte → Option (List Char)
  | 0, _ => some []
  | _, [] => some []
  | fuel + 1, l =>
    match utf8Step l with
    | (some ch, n) => (utf8StrictAux fuel (l.drop (max n 1))).map (ch :: ·)
    | (none, _) => none

/-- Model of strict `bytes.decode("utf-8")`: `none` models `UnicodeDecodeError`. -/
def utf8Strict (bs : List Byte) : Option String :=
  (utf8StrictAux bs.length bs).map String.mk

/-- ASCII decoding with `errors="replace"`: bytes ≥ 0x80 become U+FFFD. -/
def asciiReplace (bs : List Byte) : String :=
  String.mk (bs.map fun b =>
    if b.val < 0x80 then Char.ofNat b.val else replacementChar)

/-- The text encodings modelled here. -/
inductive Encoding : Type where
  | utf8
  | latin1
  | ascii
  deriving DecidableEq, Repr

/-- Model of `bytes.decode(enc, errors="replace")` for the modelled encodings. -/
def decodeReplace : Encoding → List Byte → String
  | .utf8, bs => utf8Replace bs
  | .latin1, bs => latin1Decode bs
  | .ascii, bs => asciiReplace bs

/-- Lower-case an ASCII character (`str.lower` restricted to ASCII, which
is all that header names and codec names need). -/
def lowerAscii (c : Char) : Char :=
  if 'A' ≤ c ∧ c ≤ 'Z' then Char.ofNat (c.toNat + 32) else c

/-- Model of `str.lower()` on the characters of a string, ASCII range only. -/
def strLower (s : String) : String :=
  String.mk (s.toList.map lowerAscii)

/-- Is `c` an ASCII letter or digit? -/
def isAsciiAlnum (c : Char) : Bool :=
  ('a' ≤ c && c ≤ 'z') || ('A' ≤ c && c ≤ 'Z') || ('0' ≤ c && c ≤ '9')

/-- Model of `encodings.normalize_encoding`: keep (lower-cased) alphanumerics and
dots, collapse every other run of characters to a single underscore, and
drop leading punctuation.  Modelled from the CPython implementation. -/
def normalizeEncodingAux : Bool → List Char → List Char
  | _, [] => []
  | punct, c :: rest =>
    if isAsciiAlnum c ∨ c = '.' then
      if punct then '_' :: lowerAscii c :: normalizeEncodingAux false rest
      else lowerAscii c :: normalizeEncodingAux false rest
    else normalizeEncodingAux true rest

/-- Normalise a codec name; leading punctuation produces no underscore
because nothing has been emitted yet. -/
def normalizeEncoding (s : String) : String :=
  String.mk (normalizeEncodingAux false (s.toList.dropWhile
    fun c => ¬ (isAsciiAlnum c ∨ c = '.')))

/-- Model of `codecs.lookup`: map a codec name to an encoding, `none` modelling
`LookupError`.  Modelled from the CPython codecs registry (normalisation
plus the alias table), restricted to the encodings modelled here; any
other name — in particular a full MIME type such as
`"application/json"` or `"text/plain; charset=latin-1"` — is not a
registered codec and yields `none`. -/
def lookupEncoding (name : String) : Option Encoding :=
  let n := normalizeEncoding name
  if n ∈ ["utf_8", "utf8", "utf", "u8", "cp65001"] then some .utf8
  else if n ∈ ["latin_1", "latin1", "latin", "l1", "iso_8859_1",
      "iso8859_1", "8859", "cp819"] then some .latin1
  else if n ∈ ["ascii", "us_ascii", "646"] then some .ascii
  else none

/-! ## Base64

The source computes `base64.b64encode(raw_body).decode("ascii")`.  The
encoder is modelled from the standard base64 alphabet with `=` padding;
`b64decode` is the spec-side standard decoder used to state the
round-trip property. -/

/-- The standard base64 alphabet. -/
def b64Alphabet : List Char :=
  "ABCDEFGHIJKLMNOPQRSTUVWXYZabcdefghijklmnopqrstuvwxyz0123456789+/".toList

/-- The character for a 6-bit group. -/
def b64Char (n : Nat) : Char := b64Alphabet.getD n 'A'

/-- Model of `base64.b64encode` on a byte list, producing the character list of
the ASCII result: 3 input bytes per 4 alphabet characters, with `=`
padding for a 1- or 2-byte tail. -/
def b64chars : List Byte → List Char
  | [] => []
  | [a] =>
    [b64Char (a.val / 4), b64Char (a.val % 4 * 16), '=', '=']
  | [a, b] =>
    [b64Char (a.val / 4), b64Char (a.val % 4 * 16 + b.val / 16),
     b64Char (b.val % 16 * 4), '=']
  | a :: b :: c :: rest =>
    b64Char (a.val / 4) :: b64Char (a.val % 4 * 16 + b.val / 16) ::
      b64Char (b.val % 16 * 4 + c.val / 64) :: b64Char (c.val % 64) ::
      b64chars rest

/-- Model of `base64.b64encode(bs).decode("ascii")`. -/
def b64encode (bs : List Byte) : String := String.mk (b64chars bs)

/-- The 6-bit value of a base64 alphabet character (`none` for a
character outside the alphabet, including `=`). -/
def b64Val (c : Char) : Option Nat := b64Alphabet.indexOf? c

/-- First output byte of a base64 quantum. -/
def b64byte1 (a b : Nat) : Byte := ⟨(a * 4 + b / 16) % 256, Nat.mod_lt _ (by omega)⟩

/-- Second output byte of a base64 quantum. -/
def b64byte2 (b c : Nat) : Byte := ⟨(b % 16 * 16 + c / 4) % 256, Nat.mod_lt _ (by omega)⟩

/-- Third output byte of a base64 quantum. -/
def b64byte3 (c d : Nat) : Byte := ⟨(c % 4 * 64 + d) % 256, Nat.mod_lt _ (by omega)⟩

/-- Standard base64 decoding of a character list: quanta of four
characters, `=` padding allowed only at the very end.  `none` on any
malformed input. -/
def b64decodeChars : List Char → Option (List Byte)
  | [] => some []
  | w :: x :: y :: z :: rest =>
    match b64Val w, b64Val x with
    | some a, some b =>
      if y = '=' then
        if z = '=' ∧ rest = [] then some [b64byte1 a b] else none
      else
        match b64Val y with
        | some c =>
          if z = '=' then
            if rest = [] then some [b64byte1 a b, b64byte2 b c] else none
          else
            match b64Val z with
            | some d =>
              (b64decodeChars rest).map
                (fun tl => b64byte1 a b :: b64byte2 b c :: b64byte3 c d :: tl)
            | none => none
        | none => none
    | _, _ => none
  | _ => none

/-- Standard base64 decoding of a string. -/
def b64decode (s : String) : Option (List Byte) := b64decodeChars s.toList

/-! ## JSON parsing

The source calls `await request.json()`, which is `json.loads` applied to
the raw body bytes inside `try: ... except Exception: json_payload = None`.
The parser below is modelled from the runtime `json.loads` on the RFC 8259
grammar (strict mode): the nonstandard `NaN`/`Infinity` extensions and the
UTF-16/32 wire-form autodetection are not modelled, so a body is decoded
as strict UTF-8 first, any failure meaning the parse raises. -/

/-- JSON insignificant whitespace. -/
def jsonWs (c : Char) : Bool := c = ' ' || c = '\t' || c = '\n' || c = '\r'

/-- Drop leading JSON whitespace. -/
def skipWs (cs : List Char) : List Char := cs.dropWhile jsonWs

/-- Value of a hexadecimal digit. -/
def hexVal (c : Char) : Option Nat :=
  if '0' ≤ c ∧ c ≤ '9' then some (c.toNat - '0'.toNat)
  else if 'a' ≤ c ∧ c ≤ 'f' then some (c.toNat - 'a'.toNat + 10)
  else if 'A' ≤ c ∧ c ≤ 'F' then some (c.toNat - 'A'.toNat + 10)
  else none

/-- Read exactly four hex digits. -/
def jParseHex4 : List Char → Option (Nat × List Char)
  | a :: b :: c :: d :: rest =>
    match hexVal a, hexVal b, hexVal c, hexVal d with
    | some x, some y, some z, some w => some (x * 4096 + y * 256 + z * 16 + w, rest)
    | _, _, _, _ => none
  | _ => none

/-- The character for a simple escape letter (`\" \\ \/ \b \f \n \r \t`). -/
def jEscapeChar (c : Char) : Option Char :=
  if c = '"' then some '"'
  else if c = '\\' then some '\\'
  else if c = '/' then some '/'
  else if c = 'b' then some (Char.ofNat 8)
  else if c = 'f' then some (Char.ofNat 12)
  else if c = 'n' then some '\n'
  else if c = 'r' then some '\r'
  else if c = 't' then some '\t'
  else none

/-- Body of a JSON string after the opening quote: returns the decoded
characters and the input remaining after the closing quote.  Strict mode:
unescaped control characters are rejected; `\uXXXX` escapes combine
surrogate pairs.  Each iteration consumes at least one character, so fuel
equal to the input length suffices. -/
def jParseStringAux : Nat → List Char → Option (List Char × List Char)
  | 0, _ => none
  | _ + 1, [] => none
  | fuel + 1, c :: rest =>
    if c = '"' then some ([], rest)
    else if c = '\\' then
      match rest with
      | [] => none
      | e :: rest1 =>
        if e = 'u' then
          match jParseHex4 rest1 with
          | some (n, rest2) =>
            if 0xD800 ≤ n ∧ n ≤ 0xDBFF then
              match rest2 with
              | '\\' :: 'u' :: rest3 =>
                match jParseHex4 rest3 with
                | some (m, rest4) =>
                  if 0xDC00 ≤ m ∧ m ≤ 0xDFFF then
                    (jParseStringAux fuel rest4).map fun p =>
                      (Char.ofNat (0x10000 + (n - 0xD800) * 1024 + (m - 0xDC00)) :: p.1, p.2)
                  else
                    (jParseStringAux fuel rest2).map fun p => (Char.ofNat n :: p.1, p.2)
                | none => (jParseStringAux fuel rest2).map fun p => (Char.ofNat n :: p.1, p.2)
              | _ => (jParseStringAux fuel rest2).map fun p => (Char.ofNat n :: p.1, p.2)
            else (jParseStringAux fuel rest2).map fun p => (Char.ofNat n :: p.1, p.2)
          | none => none
        else
          match jEscapeChar e with
          | some ch => (jParseStringAux fuel rest1).map fun p => (ch :: p.1, p.2)
          | none => none
    else if c.toNat < 0x20 then none
    else (jParseStringAux fuel rest).map fun p => (c :: p.1, p.2)

/-- Digits of a decimal literal interpreted as a natural number. -/
def digitsToNat (ds : List Char) : Nat :=
  ds.foldl (fun acc c => acc * 10 + (c.toNat - '0'.toNat)) 0

/-- A JSON number at the head of the input, per the RFC 8259 grammar
`-? (0 | [1-9][0-9]*) frac? exp?`; the result is `jnum mantissa exp`
with value `mantissa * 10 ^ exp`. -/
def jParseNumber (cs : List Char) : Option (Json × List Char) :=
  let (neg, cs1) : Bool × List Char :=
    match cs with
    | '-' :: r => (true, r)
    | _ => (false, cs)
  let ip := cs1.takeWhile Char.isDigit
  let cs2 := cs1.dropWhile Char.isDigit
  if ip = [] then none
  else if 1 < ip.length ∧ ip.headD '0' = '0' then none
  else
    let (fd, cs3) : List Char × List Char :=
      match cs2 with
      | '.' :: r => (r.takeWhile Char.isDigit, r.dropWhile Char.isDigit)
      | _ => ([], cs2)
    match cs2 with
    | '.' :: _ =>
      if fd = [] then none
      else jParseNumberExp neg ip fd cs3
    | _ => jParseNumberExp neg ip fd cs3
where
  /-- The optional exponent part, then assembly of the value. -/
  jParseNumberExp (neg : Bool) (ip fd : List Char) (cs3 : List Char) :
      Option (Json × List Char) :=
    let assemble (e : Int) (isFloat : Bool) (rest : List Char) :
        Option (Json × List Char) :=
      let mNat := digitsToNat (ip ++ fd)
      let m : Int := if neg then -(mNat : Int) else (mNat : Int)
      if isFloat then some (.jnum m (e - fd.length), rest)
      else some (.jnum m 0, rest)
    match cs3 with
    | 'e' :: r | 'E' :: r =>
      let (esign, r1) : Bool × List Char :=
        match r with
        | '+' :: r' => (false, r')
        | '-' :: r' => (true, r')
        | _ => (false, r)
      let ed := r1.takeWhile Char.isDigit
      let r2 := r1.dropWhile Char.isDigit
      if ed = [] then none
      else
        let e : Int := if esign then -(digitsToNat ed : Int) else (digitsToNat ed : Int)
        assemble e true r2
    | _ => assemble 0 (fd ≠ []) cs3

/-- Insert a parsed object member with Python `dict` semantics: a repeated
key keeps its first position but takes the latest value. -/
def dictInsert (entries : List (String × Json)) (k : String) (v : Json) :
    List (String × Json) :=
  if entries.any (fun e => e.1 = k) then
    entries.map fun e => if e.1 = k then (k, v) else e
  else entries ++ [(k, v)]

mutual

/-- A JSON value at the head of the input (already whitespace-stripped),
returning the value and the remaining input.  Fuel decreases at each
recursive call, each of which happens after at least one character has
been consumed, so fuel exceeding the input length suffices. -/
def jParseVal : Nat → List Char → Option (Json × List Char)
  | 0, _ => none
  | _ + 1, [] => none
  | fuel + 1, c :: rest =>
    if c = '{' then
      match skipWs rest with
      | '}' :: r => some (.jobj [], r)
      | r => (jParseObjItems fuel r).map fun p =>
          (.jobj (p.1.foldl (fun acc e => dictInsert acc e.1 e.2) []), p.2)
    else if c = '[' then
      match skipWs rest with
      | ']' :: r => some (.jarr [], r)
      | r => (jParseArrItems fuel r).map fun p => (.jarr p.1, p.2)
    else if c = '"' then
      (jParseStringAux rest.length rest).map fun p => (.jstr (String.mk p.1), p.2)
    else if c = 't' then
      match rest with
      | 'r' :: 'u' :: 'e' :: r => some (.jbool true, r)
      | _ => none
    else if c = 'f' then
      match rest with
      | 'a' :: 'l' :: 's' :: 'e' :: r => some (.jbool false, r)
      | _ => none
    else if c = 'n' then
      match rest with
      | 'u' :: 'l' :: 'l' :: r => some (.jnull, r)
      | _ => none
    else jParseNumber (c :: rest)

/-- One or more comma-separated array elements, ending at `]`; the input
starts at an element (whitespace already stripped). -/
def jParseArrItems : Nat → List Char → Option (List Json × List Char)
  | 0, _ => none
  | fuel + 1, cs =>
    match jParseVal fuel cs with
    | some (v, r) =>
      match skipWs r with
      | ',' :: r1 => (jParseArrItems fuel (skipWs r1)).map fun p => (v :: p.1, p.2)
      | ']' :: r1 => some ([v], r1)
      | _ => none
    | none => none

/-- One or more comma-separated object members (`"key": value`), ending
at `}`; the input starts at a member (whitespace already stripped). -/
def jParseObjItems : Nat → List Char → Option (List (String × Json) × List Char)
  | 0, _ => none
  | fuel + 1, cs =>
    match cs with
    | '"' :: rest =>
      match jParseStringAux rest.length rest with
      | some (key, r1) =>
        match skipWs r1 with
        | ':' :: r2 =>
          match jParseVal fuel (skipWs r2) with
          | some (v, r3) =>
            match skipWs r3 with
            | ',' :: r4 =>
              (jParseObjItems fuel (skipWs r4)).map fun p =>
                ((String.mk key, v) :: p.1, p.2)
            | '}' :: r4 => some ([(String.mk key, v)], r4)
            | _ => none
          | none => none
        | _ => none
      | none => none
    | _ => none

end

/-- Model of `json.loads` on a character sequence: skip leading whitespace, parse
one value, require only whitespace to remain. -/
def jsonLoadsChars (cs : List Char) : Option Json :=
  let cs1 := skipWs cs
  match jParseVal (cs1.length + 1) cs1 with
  | some (v, rest) => if skipWs rest = [] then some v else none
  | none => none

/-- Model of `json.loads` on a string. -/
def jsonLoadsStr (s : String) : Option Json := jsonLoadsChars s.toList

/-- Model of `json.loads` on body bytes (`none` models any raised exception,
including the `UnicodeDecodeError` of a non-UTF-8 body). -/
def jsonLoadsBytes (bs : List Byte) : Option Json :=
  (utf8Strict bs).bind jsonLoadsStr

/-! ## Query strings and cookies -/

/-- Encode a string as latin-1 bytes (`str.encode("latin-1")`), the form
header names take on the wire; characters above U+00FF cannot occur in
the places this is used and are reduced mod 256. -/
def strToLatin1 (s : String) : List Byte :=
  s.toList.map fun c => ⟨c.toNat % 256, Nat.mod_lt _ (by omega)⟩

/-- Maximal leading run of percent escapes `%XX`: the escaped bytes and
the remaining input. -/
def collectEscapes : List Char → List Byte × List Char
  | '%' :: h1 :: h2 :: rest =>
    match hexVal h1, hexVal h2 with
    | some a, some b =>
      let (bs, r) := collectEscapes rest
      (⟨(a * 16 + b) % 256, Nat.mod_lt _ (by omega)⟩ :: bs, r)
    | _, _ => ([], '%' :: h1 :: h2 :: rest)
  | l => ([], l)

/-- Fuelled loop of percent decoding: a maximal run of `%XX` escapes is
decoded as UTF-8 bytes with replacement, a `%` not followed by two hex
digits is literal.  Each iteration consumes at least one character. -/
def unquoteAux : Nat → List Char → List Char
  | 0, _ => []
  | _ + 1, [] => []
  | fuel + 1, c :: rest =>
    if c = '%' then
      match rest with
      | h1 :: h2 :: _ =>
        if (hexVal h1).isSome ∧ (hexVal h2).isSome then
          let (bs, r) := collectEscapes (c :: rest)
          (utf8Replace bs).toList ++ unquoteAux fuel r
        else c :: unquoteAux fuel rest
      | _ => c :: unquoteAux fuel rest
    else c :: unquoteAux fuel rest

/-- Model of `urllib.parse.unquote(s, encoding="utf-8", errors="replace")`. -/
def unquote (s : String) : String :=
  String.mk (unquoteAux s.toList.length s.toList)

/-- Model of `urllib.parse.unquote_plus`: `+` becomes a space, then
percent escapes are decoded. -/
def unquotePlus (s : String) : String :=
  unquote (String.mk (s.toList.map fun c => if c = '+' then ' ' else c))

/-- Split a character list on every occurrence of `sep`
(`str.split(sep)`): the empty input gives one empty group. -/
def splitChar (sep : Char) : List Char → List (List Char)
  | [] => [[]]
  | c :: rest =>
    if c = sep then [] :: splitChar sep rest
    else
      match splitChar sep rest with
      | [] => [[c]]
      | g :: gs => (c :: g) :: gs

/-- Model of `str.strip()`: drop whitespace from both ends. -/
def trimWs (s : String) : String :=
  String.mk
    (((s.toList.dropWhile Char.isWhitespace).reverse.dropWhile
      Char.isWhitespace).reverse)

/-- Split a character list at the first occurrence of `sep`
(`str.split(sep, 1)` / `str.partition(sep)`); `none` when absent. -/
def splitFirst (sep : Char) : List Char → Option (List Char × List Char)
  | [] => none
  | c :: rest =>
    if c = sep then some ([], rest)
    else (splitFirst sep rest).map fun p => (c :: p.1, p.2)

/-- One `name=value` field of a query string, with
`keep_blank_values=True`: an empty field is skipped, a field without `=`
keeps an empty value.  Modelled from CPython `urllib.parse.parse_qsl`. -/
def qslPair (s : String) : Option (String × String) :=
  if s = "" then none
  else
    match splitFirst '=' s.toList with
    | some (n, v) => some (unquotePlus (String.mk n), unquotePlus (String.mk v))
    | none => some (unquotePlus s, "")

/-- Model of `urllib.parse.parse_qsl(qs, keep_blank_values=True)`: split
on `&` and parse each field, preserving order and duplicates. -/
def parseQsl (qs : String) : List (String × String) :=
  (splitChar '&' qs.toList).filterMap fun cs => qslPair (String.mk cs)

/-- Replace the value of an existing key or append a new entry: Python
`dict` assignment on an association list (first position kept, latest
value wins). -/
def upsert {α : Type} (entries : List (String × α)) (k : String) (v : α) :
    List (String × α) :=
  if entries.any (fun e => e.1 = k) then
    entries.map fun e => if e.1 = k then (k, v) else e
  else entries ++ [(k, v)]

/-- Strip one pair of surrounding double quotes. -/
def stripQuotes (s : String) : String :=
  let cs := s.toList
  if 2 ≤ cs.length ∧ cs.headD ' ' = '"' ∧ cs.getLastD ' ' = '"' then
    String.mk (cs.drop 1).dropLast
  else s

/-- Model of the Starlette cookie parsing applied to the `Cookie` header:
split on `;`, partition each chunk at the first `=` (a chunk without `=`
is all value), strip whitespace, drop chunks that are entirely empty,
and store into a dict unquoting surrounding double quotes (the octal
escape handling of quoted cookie values is not modelled). -/
def cookieParser (s : String) : List (String × String) :=
  (splitChar ';' s.toList).foldl
    (fun acc chunk =>
      let kv : String × String :=
        match splitFirst '=' chunk with
        | some (k, v) => (String.mk k, String.mk v)
        | none => ("", String.mk chunk)
      let key := trimWs kv.1
      let val := trimWs kv.2
      if key ≠ "" ∨ val ≠ "" then upsert acc key (stripQuotes val) else acc)
    []

/-! ## The request model

The handler reads the ASGI connection scope (a heterogeneous dictionary)
through Starlette accessors, plus the raw body bytes delivered on the
receive channel.  A request is exactly those two things. -/

/-- An incoming HTTP request as the ASGI transport delivers it: the
connection scope dictionary and the raw body bytes. -/
structure Request where
  scope : List (String × PyVal)
  body : List Byte

/-- Model of `dict.get` on the scope: the value of the first (for a real
dict, only) entry with the given key. -/
def scopeGet (scope : List (String × PyVal)) (key : String) : Option PyVal :=
  (scope.find? fun e => e.1 = key).map Prod.snd

/-- Decode the ASGI `headers` value, a sequence of `(bytes, bytes)`
pairs, into a list of raw header pairs; entries of any other shape
(which a conforming transport never produces) are ignored. -/
def headerPairsOf : PyVal → List (List Byte × List Byte)
  | .plist items | .ptuple items =>
    items.filterMap fun it =>
      match it with
      | .ptuple [.pbytes n, .pbytes v] => some (n, v)
      | .plist [.pbytes n, .pbytes v] => some (n, v)
      | _ => none
  | _ => []

/-- Model of the Starlette `request.headers.raw` list: the raw
`(bytes, bytes)` pairs of the ASGI scope, order and duplicates kept. -/
def reqHeaders (req : Request) : List (List Byte × List Byte) :=
  match scopeGet req.scope "headers" with
  | some v => headerPairsOf v
  | none => []

/-- Model of `request.headers.get(key)`: latin-1 value of the first raw
header whose name equals the lower-cased key encoded latin-1 (ASGI
header names are already lower case). -/
def headersGet (hs : List (List Byte × List Byte)) (key : String) :
    Option String :=
  (hs.find? fun p => p.1 = strToLatin1 (strLower key)).map
    fun p => latin1Decode p.2

/-- Model of `request.method` (`scope["method"]`). -/
def reqMethod (req : Request) : String :=
  match scopeGet req.scope "method" with
  | some (.pstr m) => m
  | _ => ""

/-- Model of the request path (`scope["path"]`, which is also the path
component of the reconstructed URL). -/
def reqPath (req : Request) : String :=
  match scopeGet req.scope "path" with
  | some (.pstr p) => p
  | _ => ""

/-- The raw query string bytes (`scope["query_string"]`). -/
def reqQueryBytes (req : Request) : List Byte :=
  match scopeGet req.scope "query_string" with
  | some (.pbytes bs) => bs
  | _ => []

/-- Model of `request.client` (`scope.get("client")`, an optional
`(host, port)` pair). -/
def reqClient (req : Request) : Option (String × Int) :=
  match scopeGet req.scope "client" with
  | some (.ptuple [.pstr h, .pint p]) => some (h, p)
  | some (.plist [.pstr h, .pint p]) => some (h, p)
  | _ => none

/-- The two components of `scope.get("server") or (None, None)`: a pair
value is unpacked, anything else (absent key or `None`) gives two
`None`s. -/
def serverPairOf (scope : List (String × PyVal)) : PyVal × PyVal :=
  match scopeGet scope "server" with
  | some (.ptuple [h, p]) => (h, p)
  | some (.plist [h, p]) => (h, p)
  | _ => (.pnone, .pnone)

/-- Default port of a scheme, as in the Starlette URL reconstruction. -/
def defaultPort (scheme : String) : Int :=
  if scheme = "http" then 80
  else if scheme = "https" then 443
  else if scheme = "ws" then 80
  else if scheme = "wss" then 443
  else 0

/-- Model of the Starlette `URL(scope=...)` string reconstruction: prefer
the `Host` header, else the scope server pair (omitting a default or
absent port), else a bare path; append the query string when non-empty. -/
def urlOf (scheme : String) (hostHeader : Option String)
    (server : PyVal × PyVal) (path : String) (qs : List Byte) : String :=
  let base :=
    match hostHeader with
    | some h => scheme ++ "://" ++ h ++ path
    | none =>
      match server with
      | (.pstr h, .pint p) =>
        if p = defaultPort scheme then scheme ++ "://" ++ h ++ path
        else scheme ++ "://" ++ h ++ ":" ++ toString p ++ path
      | (.pstr h, _) => scheme ++ "://" ++ h ++ path
      | _ => path
  if qs = [] then base else base ++ "?" ++ latin1Decode qs

/-- The scheme (`scope.get("scheme", "http")` in the URL builder). -/
def reqScheme (req : Request) : String :=
  match scopeGet req.scope "scheme" with
  | some (.pstr s) => s
  | _ => "http"

/-- Model of `str(request.url)`. -/
def reqUrl (req : Request) : String :=
  urlOf (reqScheme req) (headersGet (reqHeaders req) "host")
    (serverPairOf req.scope) (reqPath req) (reqQueryBytes req)

/-- Model of `str(request.base_url)`: the same reconstruction at path
`/` with no query string. -/
def reqBaseUrl (req : Request) : String :=
  urlOf (reqScheme req) (headersGet (reqHeaders req) "host")
    (serverPairOf req.scope) "/" []

/-- Model of `request.cookies`: parse the `Cookie` header when present
and non-empty. -/
def reqCookies (req : Request) : List (String × String) :=
  match headersGet (reqHeaders req) "cookie" with
  | some s => if s ≠ "" then cookieParser s else []
  | none => []

/-! ## The handler, translated from `src/main.py` -/

/-- The scope keys `_normalize_scope` skips as non-serialisable or
redundant. -/
def scopeDropKeys : List String :=
  ["headers", "raw_headers", "app", "router", "endpoint", "state"]

/-- The first type test of `_normalize_scope`:
`isinstance(value, (str, int, float, bool)) or value is None`, which is
also the per-item test for sequences. -/
def isScalarOrNone : PyVal → Bool
  | .pstr _ | .pint _ | .pfloat _ | .pbool _ | .pnone => true
  | _ => false

/-- Translation of `_normalize_scope`: drop the known-redundant keys,
keep scalar (or `None`) values as they are, keep a `list` or `tuple`
whose items are all scalars-or-`None` as a `list`, and drop everything
else. -/
def normalizeScope : List (String × PyVal) → List (String × PyVal)
  | [] => []
  | (k, v) :: rest =>
    if k ∈ scopeDropKeys then normalizeScope rest
    else if isScalarOrNone v then (k, v) :: normalizeScope rest
    else
      match v with
      | .plist items =>
        if items.all isScalarOrNone then (k, .plist items) :: normalizeScope rest
        else normalizeScope rest
      | .ptuple items =>
        if items.all isScalarOrNone then (k, .plist items) :: normalizeScope rest
        else normalizeScope rest
      | _ => normalizeScope rest

/-- Translation of `_to_str` inside `_headers_to_list`: raw header parts
are bytes, decoded latin-1 (for which `errors="replace"` never fires). -/
def toStr (bs : List Byte) : String := latin1Decode bs

/-- Translation of `_headers_to_list`: the Starlette `Headers` object has
a `raw` attribute, so the first probe branch is taken and every raw
`(name, value)` pair is rendered, in order, duplicates kept. -/
def headersToList (hs : List (List Byte × List Byte)) :
    List (String × String) :=
  hs.map fun p => (toStr p.1, toStr p.2)

/-- The `body` sub-object of the response. -/
structure BodyInfo where
  text : Option String
  base64 : Option String
  length : Nat

/-- The response dictionary built by `echo`, one field per key.  The
`client` pair already has its Python types (`Optional[str]`,
`Optional[int]`); the `server` pair is unpacked from the scope value, so
its components stay `PyVal`. -/
structure EchoResponse where
  method : String
  http_version : PyVal
  scheme : PyVal
  url : String
  base_url : String
  path : String
  path_params : PyVal
  query_string : PyVal
  query_params : List (String × String)
  headers : List (String × String)
  cookies : List (String × String)
  client_host : Option String
  client_port : Option Int
  server_host : PyVal
  server_port : PyVal
  body : BodyInfo
  json : Json
  scope : List (String × PyVal)

/-- Translation of the handler `echo`, line by line.  The JSON field is
the parsed value when `request.json()` succeeds and Python `None`
(serialised `null`) when the body is empty or parsing raises; a parsed
JSON `null` is itself Python `None`, so both give `jnull` here. -/
def echo (req : Request) : EchoResponse :=
  let raw_body := req.body
  let hs := reqHeaders req
  let body_text : Option String :=
    if raw_body = [] then none
    else
      match lookupEncoding ((headersGet hs "content-type").getD "utf-8") with
      | some enc => some (decodeReplace enc raw_body)
      | none => some (utf8Replace raw_body)
  let json_payload : Json :=
    if raw_body = [] then .jnull
    else
      match jsonLoadsBytes raw_body with
      | some v => v
      | none => .jnull
  let body_base64 : Option String :=
    if raw_body = [] then none else some (b64encode raw_body)
  let query_params := parseQsl (latin1Decode (reqQueryBytes req))
  let client := reqClient req
  let server := serverPairOf req.scope
  { method := reqMethod req
    http_version := (scopeGet req.scope "http_version").getD .pnone
    scheme := (scopeGet req.scope "scheme").getD .pnone
    url := reqUrl req
    base_url := reqBaseUrl req
    path := reqPath req
    path_params := (scopeGet req.scope "path_params").getD (.pdict [])
    query_string :=
      match scopeGet req.scope "query_string" with
      | some (.pbytes bs) => .pstr (latin1Decode bs)
      | some v => v
      | none => .pnone
    query_params := query_params
    headers := headersToList hs
    cookies := reqCookies req
    client_host := client.map Prod.fst
    client_port := client.map Prod.snd
    server_host := server.1
    server_port := server.2
    body := { text := body_text, base64 := body_base64, length := raw_body.length }
    json := json_payload
    scope := normalizeScope req.scope }

/-! ## Routing

The decorator registers `echo` on the FastAPI application at the single
fixed path `/` for an explicit list of methods. -/

/-- The method list of the `api_route` decorator. -/
def routeMethods : List String :=
  ["GET", "POST", "PUT", "PATCH", "DELETE", "OPTIONS", "HEAD"]

/-- The path of the single registered route. -/
def routePath : String := "/"

/-- Modelled from the FastAPI/Starlette router: a fixed path pattern
without parameters matches exactly that path, and dispatch requires the
request method to be among the declared methods. -/
def routeMatches (method path : String) : Bool :=
  path == routePath && routeMethods.contains method

/-- The application: a request matching the route is answered by `echo`
with the decorator default status 200; any other request is not routed
to the handler (the framework answers 404/405 itself). -/
def handleApp (req : Request) : Option (Nat × EchoResponse) :=
  if routeMatches (reqMethod req) (reqPath req) then some (200, echo req)
  else none

/-! ## Spec-side definitions

Two definitions below follow the words of the specification rather than
the source, for the refinement-style claims that compare what the spec
says with what the code does. -/

/-- Spec-side (C2 wording): the charset parameter named in a
Content-Type header value — the text after `charset=` in a
`;`-separated, whitespace-trimmed parameter. -/
def charsetOf (ct : String) : Option String :=
  ((splitChar ';' ct.toList).filterMap fun part =>
    let p := (trimWs (String.mk part)).toList
    if strLower (String.mk (p.take 8)) = "charset=" then
      some (String.mk (p.drop 8))
    else none).head?

/-- Spec-side (C2 wording): decode the body using the charset named in
the Content-Type header, defaulting to UTF-8 when the header or its
charset parameter is absent; when the named charset is unrecognised by
the runtime, fall back to UTF-8 decoding with invalid-byte
substitution. -/
def specBodyText (req : Request) : Option String :=
  if req.body = [] then none
  else
    let cs :=
      match headersGet (reqHeaders req) "content-type" with
      | some ct => (charsetOf ct).getD "utf-8"
      | none => "utf-8"
    match lookupEncoding cs with
    | some enc => some (decodeReplace enc req.body)
    | none => some (utf8Replace req.body)

/-- Spec-side (C9 wording): a primitive scalar — string, number,
boolean, or null. -/
def specScalar : PyVal → Bool
  | .pstr _ | .pint _ | .pfloat _ | .pbool _ | .pnone => true
  | _ => false

/-- Spec-side (C9 wording): a sequence made homogeneously of such
scalars — a list or tuple all of whose items are primitive scalars
(null is listed among the scalars, so mixed scalar types still
qualify). -/
def specScalarSeq : PyVal → Bool
  | .plist items => items.all specScalar
  | .ptuple items => items.all specScalar
  | _ => false

/-- Spec-side (C9 wording): an entry of the transport scope is retained
iff its key is not one of the known-redundant keys and its value is a
primitive scalar or a homogeneous sequence of such scalars. -/
def specRetained (k : String) (v : PyVal) : Bool :=
  decide (k ∉ scopeDropKeys) && (specScalar v || specScalarSeq v)

/-- Spec-side (C9): a retained sequence is surfaced as a plain list, a
retained scalar unchanged. -/
def specRender : PyVal → PyVal
  | .ptuple items => .plist items
  | v => v

/-! ## Concrete requests used in counterexamples and witnesses -/

/-- ASCII text as body or header bytes. -/
def mkB (s : String) : List Byte := strToLatin1 s

/-- A well-formed ASGI scope for a request with the given method, path,
query string, and headers. -/
def mkScope (method path qs : String) (hdrs : List (String × String)) :
    List (String × PyVal) :=
  [("type", .pstr "http"), ("http_version", .pstr "1.1"),
   ("method", .pstr method), ("scheme", .pstr "http"),
   ("path", .pstr path), ("query_string", .pbytes (mkB qs)),
   ("headers", .plist (hdrs.map fun h =>
      PyVal.ptuple [.pbytes (mkB h.1), .pbytes (mkB h.2)])),
   ("server", .ptuple [.pstr "testserver", .pint 80]),
   ("client", .ptuple [.pstr "127.0.0.1", .pint 50000])]

/-- The scenario request of C4: `POST /` with body `{"x":1}` and header
`Content-Type: application/json`. -/
def c4Req : Request :=
  { scope := mkScope "POST" "/" ""
      [("host", "testserver"), ("content-type", "application/json")]
    body := mkB "\x7b\"x\":1\x7d" }

/-- A request whose Content-Type names the recognised charset latin-1
and whose single body byte 0xE9 is the latin-1 encoding of the letter
e-acute (and is not valid UTF-8). -/
def latinReq : Request :=
  { scope := mkScope "POST" "/" "" [("content-type", "text/plain; charset=latin-1")]
    body := [⟨0xE9, by omega⟩] }

/-- A GET request to `/` with the duplicated query key `k`. -/
def qReq : Request := { scope := mkScope "GET" "/" "k=1&k=2" [], body := [] }

/-- A GET request to the path `/foo`, method in the declared list. -/
def offPathReq : Request := { scope := mkScope "GET" "/foo" "" [], body := [] }

/-- A plain GET request to `/`. -/
def rootReq : Request := { scope := mkScope "GET" "/" "" [], body := [] }

/-- A POST to `/` with an empty body. -/
def emptyBodyReq : Request := { scope := mkScope "POST" "/" "" [], body := [] }

/-- A POST to `/` with the valid JSON body `{"a":1}` and no
Content-Type header. -/
def jsonBodyReq : Request :=
  { scope := mkScope "POST" "/" "" [], body := mkB "\x7b\"a\":1\x7d" }

/-- A POST to `/` with the non-JSON body `not-json`. -/
def notJsonReq : Request :=
  { scope := mkScope "POST" "/" "" [], body := mkB "not-json" }

/-- A POST to `/` with the valid JSON body `null`. -/
def nullBodyReq : Request :=
  { scope := mkScope "POST" "/" "" [], body := mkB "null" }

/-- A POST to `/` whose body bytes are not valid UTF-8. -/
def rawBytesReq : Request :=
  { scope := mkScope "POST" "/" "" []
    body := [⟨0x01, by omega⟩, ⟨0xFF, by omega⟩, ⟨0x00, by omega⟩] }

/-- A GET request carrying the header `x-tag` twice with different
values. -/
def dupHeaderReq : Request :=
  { scope := mkScope "GET" "/" "" [("x-tag", "a"), ("x-tag", "b")], body := [] }

/-! ## Helper lemmas -/

/-- Every 6-bit value decodes back from its alphabet character, stated
over `Fin 64` so the kernel can check all cases. -/
theorem b64Val_b64Char_fin : ∀ n : Fin 64, b64Val (b64Char n.val) = some n.val := by
  decide

/-- Every 6-bit value decodes back from its alphabet character. -/
theorem b64Val_b64Char (n : Nat) (h : n < 64) : b64Val (b64Char n) = some n :=
  b64Val_b64Char_fin ⟨n, h⟩

/-- No alphabet character is the padding character, `Fin 64` form. -/
theorem b64Char_ne_pad_fin : ∀ n : Fin 64, b64Char n.val ≠ '=' := by
  decide

/-- No alphabet character is the padding character. -/
theorem b64Char_ne_pad (n : Nat) (h : n < 64) : b64Char n ≠ '=' :=
  b64Char_ne_pad_fin ⟨n, h⟩

/-- Decoding a full quantum of four alphabet characters prepends the
three reconstructed bytes. -/
theorem b64decode_quad (a b c d : Nat) (ha : a < 64) (hb : b < 64)
    (hc : c < 64) (hd : d < 64) (rest : List Char) :
    b64decodeChars (b64Char a :: b64Char b :: b64Char c :: b64Char d :: rest) =
      (b64decodeChars rest).map
        (fun tl => b64byte1 a b :: b64byte2 b c :: b64byte3 c d :: tl) := by
  simp only [b64decodeChars, b64Val_b64Char a ha, b64Val_b64Char b hb]
  rw [if_neg (b64Char_ne_pad c hc)]
  simp only [b64Val_b64Char c hc]
  rw [if_neg (b64Char_ne_pad d hd)]
  simp only [b64Val_b64Char d hd]

/-- Standard base64 decoding is a left inverse of the encoder on byte
lists. -/
theorem b64_roundtrip_chars : ∀ l : List Byte, b64decodeChars (b64chars l) = some l
  | [] => rfl
  | [a] => by
    have ha := a.isLt
    simp only [b64chars, b64decodeChars,
      b64Val_b64Char (a.val / 4) (by omega),
      b64Val_b64Char (a.val % 4 * 16) (by omega)]
    have e1 : b64byte1 (a.val / 4) (a.val % 4 * 16) = a := by
      apply Fin.ext
      simp only [b64byte1]
      omega
    simp [e1]
  | [a, b] => by
    have ha := a.isLt
    have hb := b.isLt
    simp only [b64chars, b64decodeChars,
      b64Val_b64Char (a.val / 4) (by omega),
      b64Val_b64Char (a.val % 4 * 16 + b.val / 16) (by omega)]
    rw [if_neg (b64Char_ne_pad (b.val % 16 * 4) (by omega))]
    simp only [b64Val_b64Char (b.val % 16 * 4) (by omega)]
    have e1 : b64byte1 (a.val / 4) (a.val % 4 * 16 + b.val / 16) = a := by
      apply Fin.ext
      simp only [b64byte1]
      omega
    have e2 : b64byte2 (a.val % 4 * 16 + b.val / 16) (b.val % 16 * 4) = b := by
      apply Fin.ext
      simp only [b64byte2]
      omega
    simp [e1, e2]
  | a :: b :: c :: rest => by
    have ha := a.isLt
    have hb := b.isLt
    have hc := c.isLt
    have ih := b64_roundtrip_chars rest
    have hq := b64decode_quad (a.val / 4) (a.val % 4 * 16 + b.val / 16)
      (b.val % 16 * 4 + c.val / 64) (c.val % 64)
      (by omega) (by omega) (by omega) (by omega) (b64chars rest)
    have e1 : b64byte1 (a.val / 4) (a.val % 4 * 16 + b.val / 16) = a := by
      apply Fin.ext
      simp only [b64byte1]
      omega
    have e2 : b64byte2 (a.val % 4 * 16 + b.val / 16) (b.val % 16 * 4 + c.val / 64) = b := by
      apply Fin.ext
      simp only [b64byte2]
      omega
    have e3 : b64byte3 (b.val % 16 * 4 + c.val / 64) (c.val % 64) = c := by
      apply Fin.ext
      simp only [b64byte3]
      omega
    calc b64decodeChars (b64chars (a :: b :: c :: rest))
        = (b64decodeChars (b64chars rest)).map
            (fun tl => b64byte1 (a.val / 4) (a.val % 4 * 16 + b.val / 16) ::
              b64byte2 (a.val % 4 * 16 + b.val / 16) (b.val % 16 * 4 + c.val / 64) ::
              b64byte3 (b.val % 16 * 4 + c.val / 64) (c.val % 64) :: tl) := by
          rw [← hq]
          rfl
      _ = some (a :: b :: c :: rest) := by
          rw [ih, e1, e2, e3]
          rfl

/-- The type test of `_normalize_scope` and the scalar class of the spec
wording are the same predicate. -/
theorem specScalar_eq_isScalarOrNone : specScalar = isScalarOrNone := by
  funext v
  cases v <;> rfl

/-- The loop of `_normalize_scope` is the filter the spec describes:
keep exactly the non-redundant keys holding scalars or all-scalar
sequences, rendering sequences as lists. -/
theorem normalizeScope_eq_filterMap (l : List (String × PyVal)) :
    normalizeScope l = l.filterMap fun kv =>
      if specRetained kv.1 kv.2 then some (kv.1, specRender kv.2) else none := by
  induction l with
  | nil => rfl
  | cons kv rest ih =>
    obtain ⟨k, v⟩ := kv
    by_cases hk : k ∈ scopeDropKeys
    · simp [normalizeScope, hk, specRetained, List.filterMap_cons, ih]
    · cases v with
      | plist items =>
        by_cases hall : items.all isScalarOrNone
        · simp [normalizeScope, hk, hall, specRetained, specScalar,
            specScalarSeq, specScalar_eq_isScalarOrNone, specRender,
            isScalarOrNone, List.filterMap_cons, ih]
        · simp [normalizeScope, hk, hall, specRetained, specScalar,
            specScalarSeq, specScalar_eq_isScalarOrNone, specRender,
            isScalarOrNone, List.filterMap_cons, ih]
      | ptuple items =>
        by_cases hall : items.all isScalarOrNone
        · simp [normalizeScope, hk, hall, specRetained, specScalar,
            specScalarSeq, specScalar_eq_isScalarOrNone, specRender,
            isScalarOrNone, List.filterMap_cons, ih]
        · simp [normalizeScope, hk, hall, specRetained, specScalar,
            specScalarSeq, specScalar_eq_isScalarOrNone, specRender,
            isScalarOrNone, List.filterMap_cons, ih]
      | _ =>
        simp [normalizeScope, hk, specRetained, specScalar, specScalarSeq,
          specRender, isScalarOrNone, List.filterMap_cons, ih]

/-! ## Claims -/

/-- C1, counterexample: the route is registered at the fixed path `/`
only, not as a catch-all.  The request `GET /foo` has a declared method
but is not dispatched to the handler, so the claim that the handler is
invoked for every path is false. -/
theorem route_not_catch_all_counterexample :
    reqMethod offPathReq = "GET" ∧ reqMethod offPathReq ∈ routeMethods ∧
    reqPath offPathReq = "/foo" ∧ handleApp offPathReq = none :=
  ⟨rfl, by decide, rfl, rfl⟩

/-- C1 (amended): the handler is exposed at the single fixed path `/`
for methods GET, POST, PUT, PATCH, DELETE, OPTIONS and HEAD: every
request to `/` with one of those methods is dispatched to the handler
and answered with HTTP 200 and the structured body; requests to any
other path are not routed to the handler. -/
theorem route_dispatch_at_root (req : Request)
    (hm : reqMethod req ∈ routeMethods) (hp : reqPath req = "/") :
    handleApp req = some (200, echo req) := by
  have hmatch : routeMatches (reqMethod req) (reqPath req) = true := by
    simp [routeMatches, routePath, hp, hm]
  simp [handleApp, hmatch]

/-- Witness for C1: the dispatch theorem applied to a concrete
`GET /`. -/
theorem route_dispatch_at_root_witness :
    handleApp rootReq = some (200, echo rootReq) :=
  route_dispatch_at_root rootReq (by decide) rfl

/-- C2, counterexample: for a body that is the latin-1 byte 0xE9 under
`Content-Type: text/plain; charset=latin-1`, the claim says the
recognised charset latin-1 is used, giving the letter e-acute; the code
instead passes the whole header value to the codec lookup, fails, and
falls back to UTF-8 substitution, giving U+FFFD. -/
theorem body_text_charset_counterexample :
    latinReq.body ≠ [] ∧
    charsetOf "text/plain; charset=latin-1" = some "latin-1" ∧
    specBodyText latinReq = some (String.mk [Char.ofNat 0xE9]) ∧
    (echo latinReq).body.text = some (String.mk [replacementChar]) ∧
    (echo latinReq).body.text ≠ specBodyText latinReq :=
  ⟨by decide, rfl, rfl, rfl, by decide⟩

/-- C2 (amended): for every request with a non-empty body, `body.text`
is obtained by looking up the entire Content-Type header value as a
codec name (the string `utf-8` when the header is absent) and decoding
the body with that codec under invalid-byte substitution; when that
value is not a recognised codec name — as for any MIME type or any
parameterised header value — the result is the UTF-8 decoding with
invalid-byte substitution.  The decoding step is total, so it never
raises. -/
theorem body_text_amended (req : Request) (h : req.body ≠ []) :
    (echo req).body.text =
      some (match lookupEncoding
          ((headersGet (reqHeaders req) "content-type").getD "utf-8") with
        | some enc => decodeReplace enc req.body
        | none => utf8Replace req.body) := by
  simp only [echo, h, if_neg h]
  cases lookupEncoding ((headersGet (reqHeaders req) "content-type").getD "utf-8") <;>
    simp

/-- Witness for C2: the amended theorem applied to the C4 scenario
request, whose Content-Type `application/json` is not a codec name, so
the body decodes as UTF-8. -/
theorem body_text_amended_witness :
    c4Req.body ≠ [] ∧ (echo c4Req).body.text = some "\x7b\"x\":1\x7d" :=
  ⟨by decide, (body_text_amended c4Req (by decide)).trans rfl⟩

/-- C3: for every request with a non-empty body, when the body parses
as JSON the echoed `json` field is exactly the parsed value (no
Content-Type condition appears anywhere), and when parsing fails the
field is null and the response is still produced. -/
theorem json_best_effort (req : Request) (h : req.body ≠ []) :
    (∀ v, jsonLoadsBytes req.body = some v → (echo req).json = v) ∧
    (jsonLoadsBytes req.body = none → (echo req).json = .jnull) := by
  constructor
  · intro v hv
    simp [echo, h, hv]
  · intro hv
    simp [echo, h, hv]

/-- Witness for C3: the body `{"a":1}` (sent without any Content-Type
header) is echoed as the parsed object, and the body `not-json` yields
a null `json` field. -/
theorem json_best_effort_witness :
    (echo jsonBodyReq).json = .jobj [("a", .jnum 1 0)] ∧
    (echo notJsonReq).json = .jnull :=
  ⟨(json_best_effort jsonBodyReq (by decide)).1 _ rfl,
   (json_best_effort notJsonReq (by decide)).2 rfl⟩

/-- C4, counterexample: the scenario body `{"x":1}` is 7 bytes long, so
`body.length` is 7 and the claimed value 8 is wrong (the other two
claimed fields are correct). -/
theorem scenario_length_counterexample :
    (echo c4Req).body.length = 7 ∧ (echo c4Req).body.length ≠ 8 :=
  ⟨rfl, by decide⟩

/-- C4 (amended): for the request `POST /` with body `{"x":1}` and
header `Content-Type: application/json`, the response has the parsed
object as `json`, the body text `{"x":1}`, and `body.length` equal
to 7. -/
theorem scenario_post_json_amended :
    (echo c4Req).json = .jobj [("x", .jnum 1 0)] ∧
    (echo c4Req).body.text = some "\x7b\"x\":1\x7d" ∧
    (echo c4Req).body.length = 7 :=
  ⟨rfl, rfl, rfl⟩

/-- C5: for every request with an empty body, the echoed `body.text`,
`body.base64` and `json` are all null and `body.length` is 0. -/
theorem empty_body_fields (req : Request) (h : req.body = []) :
    (echo req).body.text = none ∧ (echo req).body.base64 = none ∧
    (echo req).json = .jnull ∧ (echo req).body.length = 0 := by
  refine ⟨?_, ?_, ?_, ?_⟩ <;> simp [echo, h]

/-- Witness for C5: the empty-body theorem applied to a concrete empty
POST. -/
theorem empty_body_fields_witness :
    (echo emptyBodyReq).body.text = none ∧
    (echo emptyBodyReq).body.base64 = none ∧
    (echo emptyBodyReq).json = .jnull ∧
    (echo emptyBodyReq).body.length = 0 :=
  empty_body_fields emptyBodyReq rfl

/-- C6: for every request with a non-empty body of arbitrary bytes, the
echoed `body.base64` is present and standard base64 decoding returns
exactly the original body bytes. -/
theorem base64_roundtrip (req : Request) (h : req.body ≠ []) :
    ∃ s, (echo req).body.base64 = some s ∧ b64decode s = some req.body := by
  refine ⟨b64encode req.body, ?_, ?_⟩
  · simp [echo, h]
  · show b64decodeChars (b64encode req.body).toList = some req.body
    have he : (b64encode req.body).toList = b64chars req.body := rfl
    rw [he, b64_roundtrip_chars]

/-- Witness for C6: the round trip at a concrete three-byte body that
is not valid UTF-8. -/
theorem base64_roundtrip_witness :
    rawBytesReq.body ≠ [] ∧
    ∃ s, (echo rawBytesReq).body.base64 = some s ∧
      b64decode s = some rawBytesReq.body :=
  ⟨by decide, base64_roundtrip rawBytesReq (by decide)⟩

/-- C7: for every request carrying the same header name at two raw
positions with different values, the echoed `headers` list has the same
length as the raw list and shows both entries, rendered at their
original positions — duplicates are never collapsed or overwritten. -/
theorem headers_keep_duplicates (req : Request) (i j : Nat) (_hij : i < j)
    (n v1 v2 : List Byte)
    (hi : (reqHeaders req)[i]? = some (n, v1))
    (hj : (reqHeaders req)[j]? = some (n, v2)) (_hvne : v1 ≠ v2) :
    (echo req).headers.length = (reqHeaders req).length ∧
    (echo req).headers[i]? = some (toStr n, toStr v1) ∧
    (echo req).headers[j]? = some (toStr n, toStr v2) := by
  have hh : (echo req).headers =
      (reqHeaders req).map fun p => (toStr p.1, toStr p.2) := rfl
  refine ⟨?_, ?_, ?_⟩
  · rw [hh]
    simp
  · rw [hh]
    simp [List.getElem?_map, hi]
  · rw [hh]
    simp [List.getElem?_map, hj]

/-- Witness for C7: the request carrying `x-tag: a` and `x-tag: b`
shows both entries, in receipt order. -/
theorem headers_keep_duplicates_witness :
    (echo dupHeaderReq).headers[0]? = some ("x-tag", "a") ∧
    (echo dupHeaderReq).headers[1]? = some ("x-tag", "b") := by
  have h := headers_keep_duplicates dupHeaderReq 0 1 (by omega)
    (mkB "x-tag") (mkB "a") (mkB "b") rfl rfl (by decide)
  exact ⟨h.2.1, h.2.2⟩

/-- C8: for every request, the echoed `query_params` list is the
in-order, per-field parse of the raw query string — one entry per
`&`-separated non-empty field, so repeated keys are preserved as
separate pairs in original order. -/
theorem query_params_preserve_order (req : Request) (qs : List Byte)
    (h : scopeGet req.scope "query_string" = some (.pbytes qs)) :
    (echo req).query_params =
      (splitChar '&' (latin1Decode qs).toList).filterMap
        (fun cs => qslPair (String.mk cs)) := by
  have hq : reqQueryBytes req = qs := by
    simp [reqQueryBytes, h]
  simp [echo, parseQsl, hq]

/-- Witness for C8: the query string `k=1&k=2` yields exactly
`[(k, 1), (k, 2)]` in that order. -/
theorem query_params_preserve_order_witness :
    (echo qReq).query_params = [("k", "1"), ("k", "2")] :=
  (query_params_preserve_order qReq (mkB "k=1&k=2") rfl).trans rfl

/-- C9: the echoed `scope` snapshot is exactly the filter of the
transport scope that keeps an entry iff its key is not one of the
known-redundant keys and its value is a primitive scalar or a sequence
made of such scalars, sequences being surfaced as plain lists;
everything else — byte strings, dictionaries, framework objects — is
dropped. -/
theorem scope_snapshot_exact (req : Request) :
    (echo req).scope = req.scope.filterMap fun kv =>
      if specRetained kv.1 kv.2 then some (kv.1, specRender kv.2) else none := by
  have h : (echo req).scope = normalizeScope req.scope := rfl
  rw [h, normalizeScope_eq_filterMap]

/-- C10: the body `null` is valid JSON parsing to the JSON null value,
yet the echoed `json` field for it is exactly the same null used when
parsing fails (body `not-json`), so a null `json` field does not imply
the body was not valid JSON. -/
theorem json_null_indistinguishable :
    jsonLoadsBytes nullBodyReq.body = some .jnull ∧
    jsonLoadsBytes notJsonReq.body = none ∧
    (echo nullBodyReq).json = .jnull ∧
    (echo nullBodyReq).json = (echo notJsonReq).json :=
  ⟨rfl, rfl, rfl, rfl⟩

end Echoing
